import Mathlib

/-!
Verification of the BunnyCart workers-ai adapter: a shallow embedding of the
message converter, the streaming chunk mapper, the simulated-stream path,
the non-streaming response decomposer and the product-recommendation
workflow, with theorems settling the specified properties.
-/

set_option maxRecDepth 10000

/-! ## JSON values

JS objects passed through `JSON.stringify` / `JSON.parse` are modelled by a
small inductive of JSON values (numbers restricted to integers, which is all
the development exercises). -/

inductive Json where
  | null : Json
  | bool (b : Bool) : Json
  | num (n : Int) : Json
  | str (s : String) : Json
  | arr (elems : List Json) : Json
  | obj (fields : List (String × Json)) : Json

/-- Escaping of one character inside a JSON string literal, as
`JSON.stringify` does for the characters this development uses. -/
def escapeJsonChar (c : Char) : String :=
  if c = '\\' then "\\\\"
  else if c = '"' then "\\\""
  else if c = '\n' then "\\n"
  else if c = '\t' then "\\t"
  else String.singleton c

def escapeJsonString (s : String) : String :=
  String.join (s.data.map escapeJsonChar)

mutual

/-- `JSON.stringify` on the modelled JSON values (insertion order of object
fields is preserved, exactly as in JS). -/
def Json.render : Json → String
  | .null => "null"
  | .bool true => "true"
  | .bool false => "false"
  | .num n => toString n
  | .str s => "\"" ++ escapeJsonString s ++ "\""
  | .arr xs => "[" ++ Json.renderElems xs ++ "]"
  | .obj fs => "\x7b" ++ Json.renderFields fs ++ "\x7d"

def Json.renderElems : List Json → String
  | [] => ""
  | [x] => Json.render x
  | x :: y :: xs => Json.render x ++ "," ++ Json.renderElems (y :: xs)

def Json.renderFields : List (String × Json) → String
  | [] => ""
  | [(k, v)] => "\"" ++ escapeJsonString k ++ "\":" ++ Json.render v
  | (k, v) :: f :: fs =>
      "\"" ++ escapeJsonString k ++ "\":" ++ Json.render v ++ "," ++ Json.renderFields (f :: fs)

end

/-! JSON parsing (`JSON.parse`), fuel-based recursive descent. -/

def isJsonWs (c : Char) : Bool :=
  c = ' ' || c = '\n' || c = '\t' || c = '\r'

def skipWs : List Char → List Char
  | [] => []
  | c :: cs => if isJsonWs c then skipWs cs else c :: cs

def takeDigits : List Char → List Char × List Char
  | [] => ([], [])
  | c :: cs =>
      if c.isDigit then
        let (ds, rest) := takeDigits cs
        (c :: ds, rest)
      else ([], c :: cs)

def digitsToNat (ds : List Char) : Nat :=
  ds.foldl (fun a c => a * 10 + (c.toNat - 48)) 0

/-- Parse the body of a JSON string literal (after the opening quote),
returning the decoded string and the remaining input. -/
def parseStringBody : List Char → Option (String × List Char)
  | [] => none
  | '"' :: cs => some ("", cs)
  | '\\' :: c :: cs =>
      (if c = '"' then some "\""
       else if c = '\\' then some "\\"
       else if c = '/' then some "/"
       else if c = 'n' then some "\n"
       else if c = 't' then some "\t"
       else none).bind fun esc =>
        (parseStringBody cs).map fun r => (esc ++ r.1, r.2)
  | c :: cs => (parseStringBody cs).map fun r => (String.singleton c ++ r.1, r.2)

mutual

def parseJsonVal : Nat → List Char → Option (Json × List Char)
  | 0, _ => none
  | fuel + 1, cs =>
      match skipWs cs with
      | 'n' :: 'u' :: 'l' :: 'l' :: rest => some (.null, rest)
      | 't' :: 'r' :: 'u' :: 'e' :: rest => some (.bool true, rest)
      | 'f' :: 'a' :: 'l' :: 's' :: 'e' :: rest => some (.bool false, rest)
      | '"' :: rest => (parseStringBody rest).map fun r => (.str r.1, r.2)
      | '[' :: rest =>
          (match skipWs rest with
           | ']' :: r2 => some (.arr [], r2)
           | r2 => (parseJsonElems fuel r2).map fun r => (.arr r.1, r.2))
      | '\x7b' :: rest =>
          (match skipWs rest with
           | '\x7d' :: r2 => some (.obj [], r2)
           | r2 => (parseJsonFields fuel r2).map fun r => (.obj r.1, r.2))
      | '-' :: rest =>
          (match takeDigits rest with
           | ([], _) => none
           | (ds, r) => some (.num (-(digitsToNat ds : Int)), r))
      | c :: rest =>
          if c.isDigit then
            match takeDigits (c :: rest) with
            | (ds, r) => some (.num (digitsToNat ds), r)
          else none
      | [] => none

def parseJsonElems : Nat → List Char → Option (List Json × List Char)
  | 0, _ => none
  | fuel + 1, cs =>
      (parseJsonVal fuel cs).bind fun r =>
        match skipWs r.2 with
        | ',' :: r2 => (parseJsonElems fuel r2).map fun r3 => (r.1 :: r3.1, r3.2)
        | ']' :: r2 => some ([r.1], r2)
        | _ => none

def parseJsonFields : Nat → List Char → Option (List (String × Json) × List Char)
  | 0, _ => none
  | fuel + 1, cs =>
      match skipWs cs with
      | '"' :: rest =>
          (parseStringBody rest).bind fun rk =>
            match skipWs rk.2 with
            | ':' :: r2 =>
                (parseJsonVal fuel r2).bind fun rv =>
                  match skipWs rv.2 with
                  | ',' :: r3 => (parseJsonFields fuel r3).map fun rf => ((rk.1, rv.1) :: rf.1, rf.2)
                  | '\x7d' :: r3 => some ([(rk.1, rv.1)], r3)
                  | _ => none
            | _ => none
      | _ => none

end

/-- `JSON.parse`: succeeds only when the whole input is one JSON value. -/
def Json.parse (s : String) : Option Json :=
  match parseJsonVal (s.length + 1) s.data with
  | some (j, rest) => if skipWs rest = [] then some j else none
  | none => none

/-! ## Canonical prompt and the message converter

Shallow embedding of `convertToWorkersAIChatMessages`
(convert-to-workersai-chat-messages.ts).  Content parts and turn roles are
closed unions at the type level in the source, but the converter dispatches
on runtime tags with default branches, so the embedding includes an `other`
constructor standing for any unrecognized runtime variant.  A thrown
`Error` is embedded as `Except.error` carrying the message. -/

inductive FileData where
  | bytes (data : List Nat) : FileData
  | url (u : String) : FileData
deriving DecidableEq

inductive ContentPart where
  | text (t : String) : ContentPart
  | reasoning (t : String) : ContentPart
  | file (data : FileData) (mediaType : Option String) : ContentPart
  | toolCall (toolCallId : String) (toolName : String) (input : Json) : ContentPart
  | other (typeName : String) : ContentPart

structure ToolResultEntry where
  toolName : String
  output : Json

inductive Turn where
  | system (content : String) : Turn
  | user (parts : List ContentPart) : Turn
  | assistant (parts : List ContentPart) : Turn
  | tool (results : List ToolResultEntry) : Turn
  | other (role : String) : Turn

structure ImageEntry where
  image : List Nat
  mimeType : Option String
deriving DecidableEq

structure BackendToolCall where
  id : String
  name : String
  arguments : String
deriving DecidableEq

structure BackendMessage where
  role : String
  content : String
  name : Option String := none
  tool_call_id : Option String := none
  tool_calls : Option (List BackendToolCall) := none
deriving DecidableEq

/-- The runtime `part.type` tag used in the thrown error messages. -/
def partTypeName : ContentPart → String
  | .text _ => "text"
  | .reasoning _ => "reasoning"
  | .file _ _ => "file"
  | .toolCall _ _ _ => "tool-call"
  | .other t => t

/-- The user-turn part loop: each part is rendered to a string (`text` parts
their text, everything else the empty string, since the JS callback returns
`""` for files and `undefined` — joined as the empty string — for any other
variant), and `file` parts whose data is a byte array push an entry onto the
image side list. -/
def convertUserParts : List ContentPart → List String × List ImageEntry
  | [] => ([], [])
  | p :: ps =>
      let r := convertUserParts ps
      match p with
      | .text t => (t :: r.1, r.2)
      | .file (.bytes b) mt => ("" :: r.1, { image := b, mimeType := mt } :: r.2)
      | .file (.url _) _ => ("" :: r.1, r.2)
      | _ => ("" :: r.1, r.2)

/-- One accumulated assistant tool call before the final id-synthesizing map
(the JS pushes `{function:{arguments,name}, id: part.toolCallId, type}`;
the original id is discarded by that final map). -/
structure PendingToolCall where
  origId : String
  name : String
  arguments : String

/-- The JSON text summary an assistant `tool-call` part overwrites the
running text buffer with: `JSON.stringify({name, parameters: input})`. -/
def toolSummary (n : String) (input : Json) : String :=
  Json.render (Json.obj [("name", Json.str n), ("parameters", input)])

/-- The assistant-turn part loop: `text`/`reasoning` append to the running
buffer, a `tool-call` overwrites the buffer with its JSON summary and pushes
an accumulated call, anything else throws `Unsupported part type`. -/
def convertAssistantParts :
    List ContentPart → String → List PendingToolCall →
    Except String (String × List PendingToolCall)
  | [], text, calls => .ok (text, calls)
  | p :: ps, text, calls =>
      match p with
      | .text t => convertAssistantParts ps (text ++ t) calls
      | .reasoning t => convertAssistantParts ps (text ++ t) calls
      | .toolCall tid n input =>
          convertAssistantParts ps (toolSummary n input)
            (calls ++ [{ origId := tid, name := n, arguments := Json.render input }])
      | p => .error ("Unsupported part type: " ++ partTypeName p)

/-- List map carrying the element index, starting at `i`. -/
def mapWithIndex {α β : Type} (f : Nat → α → β) : Nat → List α → List β
  | _, [] => []
  | i, a :: as => f i a :: mapWithIndex f (i + 1) as

/-- The deterministic tool-call id formula `functions.<name>:<index>`. -/
def functionsId (n : String) (i : Nat) : String :=
  "functions." ++ n ++ ":" ++ toString i

/-- The assistant message's `tool_calls` field: omitted entirely when no
tool calls occurred, otherwise each entry's id is re-synthesized from the
function name and its position in the list. -/
def assistantToolCallsField (calls : List PendingToolCall) : Option (List BackendToolCall) :=
  if calls.isEmpty then none
  else some (mapWithIndex
    (fun i c => { id := functionsId c.name i, name := c.name, arguments := c.arguments }) 0 calls)

/-- Conversion of a single turn into backend messages plus extracted images. -/
def convertTurn : Turn → Except String (List BackendMessage × List ImageEntry)
  | .system c => .ok ([{ role := "system", content := c }], [])
  | .user ps =>
      let r := convertUserParts ps
      .ok ([{ role := "user", content := String.intercalate "\n" r.1 }], r.2)
  | .assistant ps =>
      (convertAssistantParts ps "" []).map fun r =>
        ([{ role := "assistant", content := r.1, tool_calls := assistantToolCallsField r.2 }], [])
  | .tool results =>
      .ok (mapWithIndex
        (fun i tr =>
          { role := "tool", content := Json.render tr.output, name := some tr.toolName,
            tool_call_id := some (functionsId tr.toolName i) }) 0 results, [])
  | .other r => .error ("Unsupported role: " ++ r)

/-- `convertToWorkersAIChatMessages`: turns are processed in order, pushed
messages and images accumulate, and a thrown error aborts the whole
conversion immediately. -/
def convertToWorkersAIChatMessages :
    List Turn → Except String (List BackendMessage × List ImageEntry)
  | [] => .ok ([], [])
  | t :: ts =>
      (convertTurn t).bind fun r =>
        (convertToWorkersAIChatMessages ts).map fun r2 =>
          (r.1 ++ r2.1, r.2 ++ r2.2)

/-! ## Usage normalizer and the streaming chunk mapper

Shallow embedding of `mapWorkersAIUsage` (map-workersai-usage.ts) and
`getMappedStream` (streaming.ts).  The SSE byte layer (empty events, the
`[DONE]` sentinel) is below the granularity of the claims: the input is the
sequence of already-JSON-parsed chunks.  `generateId()` from the `ai`
package returns a fresh id on every call; it is embedded as a counter
threaded through the state, so distinct calls yield distinct ids. -/

structure RawUsage where
  prompt_tokens : Nat
  completion_tokens : Nat
deriving DecidableEq

structure Usage where
  inputTokens : Nat
  outputTokens : Nat
  totalTokens : Nat
deriving DecidableEq

/-- `mapWorkersAIUsage`: the argument is the `usage` field of the backend
object (absent field embedded as `none`, defaulted to zero counts). -/
def mapWorkersAIUsage (u : Option RawUsage) : Usage :=
  let usage := u.getD { prompt_tokens := 0, completion_tokens := 0 }
  { outputTokens := usage.completion_tokens,
    inputTokens := usage.prompt_tokens,
    totalTokens := usage.prompt_tokens + usage.completion_tokens }

/-- One streamed tool-call fragment as reported by a chunk: an index plus
optional pieces of the function name and of the JSON-arguments string. -/
structure ToolCallFragment where
  index : Nat
  name : Option String
  arguments : Option String
deriving DecidableEq

/-- Canonical stream events (ids of text/reasoning blocks are the values of
the `generateId` counter). -/
inductive StreamEvent where
  | streamStart : StreamEvent
  | textStart (id : Nat) : StreamEvent
  | textDelta (id : Nat) (delta : String) : StreamEvent
  | textEnd (id : Nat) : StreamEvent
  | reasoningStart (id : Nat) : StreamEvent
  | reasoningDelta (id : Nat) (delta : String) : StreamEvent
  | reasoningEnd (id : Nat) : StreamEvent
  | toolCall (id : String) (name : String) (input : Json) : StreamEvent
  | finish (usage : Usage) (finishReason : String) : StreamEvent

def isToolCallEvent : StreamEvent → Bool
  | .toolCall _ _ _ => true
  | _ => false

def isFinishEvent : StreamEvent → Bool
  | .finish _ _ => true
  | _ => false

def insertAsc (n : Nat) : List Nat → List Nat
  | [] => [n]
  | m :: ms => if n ≤ m then n :: m :: ms else m :: insertAsc n ms

def sortAsc (l : List Nat) : List Nat := l.foldr insertAsc []

/-- Modelled from the spec: `processPartialToolCalls` (utils.ts, not under
src/).  Merge-by-index: every fragment sharing an index is concatenated into
one `(name, arguments)` pair, the arguments are parsed as JSON, one
`tool-call` event is emitted per resulting index in ascending index order,
and a fragment whose name stays empty or whose arguments never parse as
valid JSON is dropped.  The spec does not fix an id for streamed tool-call
events; the index is used. -/
def processPartialToolCalls (frags : List ToolCallFragment) : List StreamEvent :=
  let idxs := sortAsc (frags.map (·.index)).dedup
  idxs.filterMap fun i =>
    let fs := frags.filter (fun f => f.index == i)
    let nm := String.join (fs.filterMap (·.name))
    let args := String.join (fs.filterMap (·.arguments))
    if nm = "" then none
    else (Json.parse args).map fun j => StreamEvent.toolCall (toString i) nm j

/-- One parsed streaming chunk: the optional signal paths `getMappedStream`
inspects (`usage`, `tool_calls`, top-level `response`,
`choices[0].delta.reasoning_content`, `choices[0].delta.content`). -/
structure Chunk where
  usage : Option RawUsage := none
  tool_calls : Option (List ToolCallFragment) := none
  response : Option String := none
  delta_reasoning_content : Option String := none
  delta_content : Option String := none

/-- JS truthiness of `s?.length`: present and non-empty. -/
def strTruthy : Option String → Bool
  | some s => s.length != 0
  | none => false

/-- Per-stream mutable state of `getMappedStream`. -/
structure StreamState where
  usage : Usage := { inputTokens := 0, outputTokens := 0, totalTokens := 0 }
  partialToolCalls : List ToolCallFragment := []
  textId : Option Nat := none
  reasoningId : Option Nat := none
  nextId : Nat := 0

/-- Emit a text delta, opening the text block first if none is open. -/
def emitTextDelta (st : StreamState) (s : String) : StreamState × List StreamEvent :=
  match st.textId with
  | some i => (st, [StreamEvent.textDelta i s])
  | none =>
      let i := st.nextId
      ({ st with textId := some i, nextId := i + 1 },
       [StreamEvent.textStart i, StreamEvent.textDelta i s])

/-- Emit a reasoning delta, opening the reasoning block first if none is
open (the real mapper reuses the open block's id for the delta). -/
def emitReasoningDelta (st : StreamState) (s : String) : StreamState × List StreamEvent :=
  match st.reasoningId with
  | some i => (st, [StreamEvent.reasoningDelta i s])
  | none =>
      let i := st.nextId
      ({ st with reasoningId := some i, nextId := i + 1 },
       [StreamEvent.reasoningStart i, StreamEvent.reasoningDelta i s])

/-- Processing of one chunk, in source order: usage overwrite, tool-call
fragment accumulation, top-level response text, reasoning delta, choices
delta content (multiplexed onto the same text block as the response path). -/
def stepChunk (st : StreamState) (c : Chunk) : StreamState × List StreamEvent :=
  let st1 := if c.usage.isSome then { st with usage := mapWorkersAIUsage c.usage } else st
  let st2 := match c.tool_calls with
    | some fs => { st1 with partialToolCalls := st1.partialToolCalls ++ fs }
    | none => st1
  let r3 := if strTruthy c.response then emitTextDelta st2 (c.response.getD "") else (st2, [])
  let r4 := if strTruthy c.delta_reasoning_content
    then emitReasoningDelta r3.1 (c.delta_reasoning_content.getD "") else (r3.1, [])
  let r5 := if strTruthy c.delta_content
    then emitTextDelta r4.1 (c.delta_content.getD "") else (r4.1, [])
  (r5.1, r3.2 ++ r4.2 ++ r5.2)

def runChunks : StreamState → List Chunk → StreamState × List StreamEvent
  | st, [] => (st, [])
  | st, c :: cs =>
      let r := stepChunk st c
      let r2 := runChunks r.1 cs
      (r2.1, r.2 ++ r2.2)

/-- End-of-input section of `getMappedStream`: reconciled tool calls, then
`reasoning-end` for a still-open reasoning block, then `text-end` for a
still-open text block, then the single `finish` with the last usage
snapshot and the fixed `"stop"` reason. -/
def finalizeStream (st : StreamState) : List StreamEvent :=
  (if st.partialToolCalls.isEmpty then [] else processPartialToolCalls st.partialToolCalls)
  ++ (match st.reasoningId with | some i => [StreamEvent.reasoningEnd i] | none => [])
  ++ (match st.textId with | some i => [StreamEvent.textEnd i] | none => [])
  ++ [StreamEvent.finish st.usage "stop"]

/-- `getMappedStream` over a chunk sequence. -/
def getMappedStream (chunks : List Chunk) : List StreamEvent :=
  let r := runChunks {} chunks
  r.2 ++ finalizeStream r.1

/-! ## Simulated streaming (doStream, path [1])

Shallow embedding of the synthetic stream `WorkersAIChatLanguageModel.doStream`
builds from a blocking `doGenerate` result.  Note the source enqueues every
`reasoning-delta` with `id: generateId()` — a fresh id — while `text-delta`
reuses the open `textId`; the embedding reproduces that faithfully. -/

structure SimState where
  textId : Option Nat := none
  reasoningId : Option Nat := none
  nextId : Nat := 0

/-- Processing of one response content part by the simulated stream. -/
def simStep (st : SimState) (p : ContentPart) : SimState × List StreamEvent :=
  match p with
  | .text t =>
      (match st.textId with
       | some i => (st, [StreamEvent.textDelta i t])
       | none =>
           let i := st.nextId
           ({ st with textId := some i, nextId := i + 1 },
            [StreamEvent.textStart i, StreamEvent.textDelta i t]))
  | .toolCall tid n input => (st, [StreamEvent.toolCall tid n input])
  | .reasoning t =>
      (match st.reasoningId with
       | some _ =>
           let j := st.nextId
           ({ st with nextId := j + 1 }, [StreamEvent.reasoningDelta j t])
       | none =>
           let i := st.nextId
           ({ st with reasoningId := some i, nextId := i + 2 },
            [StreamEvent.reasoningStart i, StreamEvent.reasoningDelta (i + 1) t]))
  | _ => (st, [])

def runSim : SimState → List ContentPart → SimState × List StreamEvent
  | st, [] => (st, [])
  | st, p :: ps =>
      let r := simStep st p
      let r2 := runSim r.1 ps
      (r2.1, r.2 ++ r2.2)

/-- The full simulated event sequence: `stream-start`, the per-part events,
`reasoning-end` then `text-end` for open blocks, one `finish`. -/
def simulateStreamEvents (content : List ContentPart) (usage : Usage)
    (finishReason : String) : List StreamEvent :=
  let r := runSim {} content
  StreamEvent.streamStart :: r.2
    ++ (match r.1.reasoningId with | some i => [StreamEvent.reasoningEnd i] | none => [])
    ++ (match r.1.textId with | some i => [StreamEvent.textEnd i] | none => [])
    ++ [StreamEvent.finish usage finishReason]

/-- Framing checker: every `text-delta`/`reasoning-delta` must carry the id
of a previously emitted, not-yet-closed start event of the same kind.  The
two accumulator lists hold the currently open text and reasoning ids. -/
def deltasWellFramed : List Nat → List Nat → List StreamEvent → Bool
  | _, _, [] => true
  | ot, orr, e :: es =>
      match e with
      | .textStart i => deltasWellFramed (i :: ot) orr es
      | .textEnd i => deltasWellFramed (ot.filter (fun j => j != i)) orr es
      | .textDelta i _ => ot.contains i && deltasWellFramed ot orr es
      | .reasoningStart i => deltasWellFramed ot (i :: orr) es
      | .reasoningEnd i => deltasWellFramed ot (orr.filter (fun j => j != i)) es
      | .reasoningDelta i _ => orr.contains i && deltasWellFramed ot orr es
      | _ => deltasWellFramed ot orr es

/-- Exactly one `finish` event, and it is the last event. -/
def oneFinishLast (evs : List StreamEvent) : Bool :=
  (evs.countP isFinishEvent == 1) &&
    (match evs.getLast? with
     | some e => isFinishEvent e
     | none => false)

/-- The conjunction of the canonical framing invariants of claim C1. -/
def streamInvariant (evs : List StreamEvent) : Bool :=
  deltasWellFramed [] [] evs && oneFinishLast evs

/-! ## Non-streaming response decomposition (doGenerate)

Shallow embedding of the `content` list built by
`WorkersAIChatLanguageModel.doGenerate` from one complete backend response.
`processText` and `processToolCalls` live in utils.ts, which is not under
src/; they are modelled from the spec below. -/

structure RawToolCall where
  id : Option String := none
  name : String
  arguments : String

/-- One complete non-streaming backend response: the optional fields the
decomposition reads. -/
structure BackendOutput where
  response : Option String := none
  choices_message_content : Option String := none
  choices_reasoning_content : Option String := none
  usage : Option RawUsage := none
  tool_calls : Option (List RawToolCall) := none

/-- Modelled from the spec: `processText` (utils.ts, not under src/) reads
the response text out of `{response | choices[0].message.content}`. -/
def processText (o : BackendOutput) : Option String :=
  o.response <|> o.choices_message_content

/-- Modelled from the spec: `processToolCalls` (utils.ts, not under src/)
derives one tool-call part per entry of the response's tool-call list,
carrying the tool name and the arguments parsed back out of their
JSON-string encoding into structured input. -/
def processToolCalls (o : BackendOutput) : List ContentPart :=
  (o.tool_calls.getD []).filterMap fun tc =>
    (Json.parse tc.arguments).map fun j => ContentPart.toolCall (tc.id.getD "") tc.name j

/-- JS truthiness of the extracted `reasoning_content` value. -/
def truthyReasoning (o : BackendOutput) : Bool :=
  match o.choices_reasoning_content with
  | some s => s.length != 0
  | none => false

/-- The `content` list returned by `doGenerate`: a reasoning part when the
first choice's `reasoning_content` is truthy, then the text part (defaulted
to `""`), then the tool-call parts. -/
def doGenerateContent (o : BackendOutput) : List ContentPart :=
  (match o.choices_reasoning_content with
   | some s => if s = "" then [] else [ContentPart.reasoning s]
   | none => [])
  ++ ContentPart.text ((processText o).getD "") :: processToolCalls o

def isTextPart : ContentPart → Bool
  | .text _ => true
  | _ => false

def isReasoningPart : ContentPart → Bool
  | .reasoning _ => true
  | _ => false

def isToolCallPart : ContentPart → Bool
  | .toolCall _ _ _ => true
  | _ => false

/-! ## Request construction and routing (doGenerate / doStream)

Embedding of the two entry points up to the backend invocation: a result of
`Except.ok` carries the first backend request that would be issued, and
`Except.error` means the call failed before any backend request.
`prepareToolsAndToolChoice` and `lastMessageWasUser` (utils.ts) are not
under src/ and are modelled from the spec. -/

/-- Modelled from the spec: `prepareToolsAndToolChoice` (utils.ts, not under
src/) passes the caller's tool definitions through to the request's `tools`
field. -/
def prepareToolsAndToolChoice (tools : Option (List String)) : Option (List String) :=
  tools

/-- Modelled from the spec: `lastMessageWasUser` (utils.ts, not under src/)
— the most recent converted message has the `user` role. -/
def lastMessageWasUser (msgs : List BackendMessage) : Bool :=
  match msgs.getLast? with
  | some m => m.role == "user"
  | none => false

/-- The caller's call-configuration bundle, restricted to the fields the
routing logic reads. -/
structure CallOptions where
  responseFormatType : Option String := none
  tools : Option (List String) := none

/-- The `tools` part of `getArgs`: the response-format selector defaults to
`"text"`; `"json"` suppresses tools; any other selector throws. -/
def getArgsTools (opts : CallOptions) : Except String (Option (List String)) :=
  match opts.responseFormatType.getD "text" with
  | "text" => .ok (prepareToolsAndToolChoice opts.tools)
  | "json" => .ok none
  | t => .error ("Unsupported type: " ++ t)

structure BackendRequest where
  messages : List BackendMessage
  tools : Option (List String)
  image : Option (List Nat)
  stream : Bool

def multiImageError : String := "Multiple images are not yet supported as input"

/-- `doGenerate` up to its backend invocation: argument preparation, prompt
conversion, the multi-image guard, then the request. -/
def doGenerateRequest (opts : CallOptions) (prompt : List Turn) :
    Except String BackendRequest :=
  (getArgsTools opts).bind fun argTools =>
    (convertToWorkersAIChatMessages prompt).bind fun r =>
      if r.2.length != 0 && r.2.length != 1 then .error multiImageError
      else .ok { messages := r.1, tools := argTools,
                 image := r.2.head?.map (·.image), stream := false }

/-- Whether `args.tools?.length` is truthy. -/
def toolsTruthy : Option (List String) → Bool
  | some l => l.length != 0
  | none => false

/-- `doStream` up to the first backend invocation: when tools are enabled
and the last converted message was a user message, the call is routed
through the blocking `doGenerate` (simulated streaming); otherwise the
multi-image guard runs and the streaming request is built. -/
def doStreamRequest (opts : CallOptions) (prompt : List Turn) :
    Except String BackendRequest :=
  (getArgsTools opts).bind fun argTools =>
    (convertToWorkersAIChatMessages prompt).bind fun r =>
      if toolsTruthy argTools && lastMessageWasUser r.1 then
        doGenerateRequest opts prompt
      else if r.2.length != 0 && r.2.length != 1 then .error multiImageError
      else .ok { messages := r.1, tools := argTools,
                 image := r.2.head?.map (·.image), stream := true }

def exceptIsOk {ε α : Type} : Except ε α → Bool
  | .ok _ => true
  | .error _ => false

/-! ## Product-recommendation workflow

Shallow embedding of `ProductRecommendationWorkflow.run`
(src/workflows/product-recommendation.ts).  The product fetch and the LLM
ranking call are external collaborators: the fetched product list and the
ranked-id list the LLM returns are inputs of the embedded run. -/

structure Product where
  id : Int
  title : String
  description : String
  price : ℚ
  rating : ℚ
deriving DecidableEq

structure RecommendationOutput where
  topProducts : List Product
  followUpQuestion : String

/-- The filter step: rating at least 2.0, and the optional price bounds. -/
def filterProducts (fetched : List Product) (minPrice maxPrice : Option ℚ) :
    List Product :=
  fetched.filter fun p =>
    let meetsMin := match minPrice with
      | some m => decide (m ≤ p.price)
      | none => true
    let meetsMax := match maxPrice with
      | some m => decide (p.price ≤ m)
      | none => true
    decide ((2 : ℚ) ≤ p.rating) && meetsMin && meetsMax

/-- The ranking step after the LLM call: look each ranked id up in the
filtered list (`map` + `filter(Boolean)` is `filterMap`), keep the first
three. -/
def rankTop3 (filtered : List Product) (rankedIds : List Int) : List Product :=
  (rankedIds.filterMap fun i => filtered.find? fun p => p.id == i).take 3

/-- `ProductRecommendationWorkflow.run`, with the fetch result and the
LLM's ranked ids as explicit inputs. -/
def productRecommendationRun (fetched : List Product)
    (minPrice maxPrice : Option ℚ) (rankedIds : List Int) : RecommendationOutput :=
  { topProducts := rankTop3 (filterProducts fetched minPrice maxPrice) rankedIds,
    followUpQuestion :=
      "Do you want me to highlight the pros and cons of these top 3 products?" }

/-! ## Theorems -/

/-- **C1** (code bug).  The claimed invariant — every `text-delta` /
`reasoning-delta` carries the id of a previously emitted, not-yet-closed
start of the same kind, and exactly one `finish` comes last — fails on the
simulated stream `doStream` builds: for a response whose content is one
reasoning part, the `reasoning-start` is emitted with one generated id and
the `reasoning-delta` with a second, freshly generated id
(`id: generateId()` in the source), so the delta does not reference the
open block. -/
theorem c1_simulated_reasoning_delta_id_mismatch :
    simulateStreamEvents [ContentPart.reasoning "r"]
        { inputTokens := 0, outputTokens := 0, totalTokens := 0 } "stop" =
      [StreamEvent.streamStart, StreamEvent.reasoningStart 0,
       StreamEvent.reasoningDelta 1 "r", StreamEvent.reasoningEnd 0,
       StreamEvent.finish { inputTokens := 0, outputTokens := 0, totalTokens := 0 } "stop"]
    ∧ streamInvariant (simulateStreamEvents [ContentPart.reasoning "r"]
        { inputTokens := 0, outputTokens := 0, totalTokens := 0 } "stop") = false := by
  exact ⟨rfl, rfl⟩

/-- **C3** (counterexample).  A user turn containing an unrecognized content
part variant does not raise: the converter produces a user message (the part
is rendered as the empty string) instead of failing, contradicting the
claim that unrecognized part variants inside user turns are fatal. -/
theorem c3_unrecognized_user_part_not_fatal :
    convertToWorkersAIChatMessages [Turn.user [ContentPart.other "video"]] =
      .ok ([{ role := "user", content := "" }], []) := by
  rfl

/-- **C3** (amended).  An unrecognized turn role, and an unrecognized
content-part variant inside an assistant turn, raise a fatal error
immediately; a user turn never fails: each of its unrecognized part
variants is silently rendered as the empty string. -/
theorem c3_fatal_errors_amended :
    (∀ r rest, convertToWorkersAIChatMessages (Turn.other r :: rest) =
        .error ("Unsupported role: " ++ r))
    ∧ (∀ tn ps rest,
        convertToWorkersAIChatMessages (Turn.assistant (ContentPart.other tn :: ps) :: rest) =
          .error ("Unsupported part type: " ++ tn))
    ∧ (∀ ps rest, convertToWorkersAIChatMessages (Turn.user ps :: rest) =
        (convertToWorkersAIChatMessages rest).map fun r2 =>
          ({ role := "user",
             content := String.intercalate "\n" (convertUserParts ps).1 } :: r2.1,
           (convertUserParts ps).2 ++ r2.2))
    ∧ (∀ tn ps, convertUserParts (ContentPart.other tn :: ps) =
        ("" :: (convertUserParts ps).1, (convertUserParts ps).2)) := by
  refine ⟨fun r rest => rfl, fun tn ps rest => rfl, fun ps rest => ?_, fun tn ps => rfl⟩
  show Except.bind _ _ = _
  cases h : convertToWorkersAIChatMessages rest with
  | ok r2 => simp [convertTurn, Except.bind, Except.map]
  | error e => simp [convertTurn, Except.bind, Except.map]

/-- **C7** (counterexample).  An assistant turn `[tool-call, text "x"]`:
the converted message's content is the tool call's JSON summary with `"x"`
appended, not (as claimed for every turn with tool calls) the summary of
the last tool-call part alone. -/
theorem c7_trailing_text_after_tool_call :
    convertToWorkersAIChatMessages
        [Turn.assistant [ContentPart.toolCall "id1" "get" (Json.obj []),
                         ContentPart.text "x"]] =
      .ok ([{ role := "assistant",
              content := toolSummary "get" (Json.obj []) ++ "x",
              tool_calls := some [{ id := "functions.get:0", name := "get",
                                    arguments := "\x7b\x7d" }] }], [])
    ∧ toolSummary "get" (Json.obj []) ++ "x" ≠ toolSummary "get" (Json.obj []) := by
  exact ⟨rfl, by decide⟩

/-- The two components of `convertUserParts` distribute over list append:
each part's rendered string and image contribution is independent of the
rest of the turn. -/
theorem convertUserParts_append (xs ys : List ContentPart) :
    convertUserParts (xs ++ ys) =
      ((convertUserParts xs).1 ++ (convertUserParts ys).1,
       (convertUserParts xs).2 ++ (convertUserParts ys).2) := by
  induction xs with
  | nil => simp [convertUserParts]
  | cons p ps ih =>
      cases p with
      | text t => simp [convertUserParts, ih]
      | reasoning t => simp [convertUserParts, ih]
      | file d mt =>
          cases d with
          | bytes b => simp [convertUserParts, ih]
          | url u => simp [convertUserParts, ih]
      | toolCall a b c => simp [convertUserParts, ih]
      | other t => simp [convertUserParts, ih]

/-- **C10** (confirmed).  A user-turn file part whose data is a URL (not a
byte array) is silently dropped: the conversion succeeds, the part
contributes the empty string to the joined user message, and nothing is
appended to the image side-channel. -/
theorem c10_url_file_part_silently_dropped (pre post : List ContentPart)
    (u : String) (mt : Option String) :
    convertUserParts (pre ++ ContentPart.file (FileData.url u) mt :: post) =
      ((convertUserParts pre).1 ++ "" :: (convertUserParts post).1,
       (convertUserParts pre).2 ++ (convertUserParts post).2)
    ∧ convertToWorkersAIChatMessages
          [Turn.user (pre ++ ContentPart.file (FileData.url u) mt :: post)] =
        .ok ([{ role := "user",
                content := String.intercalate "\n"
                  ((convertUserParts pre).1 ++ "" :: (convertUserParts post).1) }],
             (convertUserParts pre).2 ++ (convertUserParts post).2) := by
  have h1 : convertUserParts (pre ++ ContentPart.file (FileData.url u) mt :: post) =
      ((convertUserParts pre).1 ++ "" :: (convertUserParts post).1,
       (convertUserParts pre).2 ++ (convertUserParts post).2) := by
    rw [convertUserParts_append]
    simp [convertUserParts]
  refine ⟨h1, ?_⟩
  show Except.bind _ _ = _
  simp [convertTurn, h1, Except.bind, Except.map, convertToWorkersAIChatMessages]

/-- The tool names of the tool-call parts of a turn, in part order. -/
def toolCallNamesOfParts : List ContentPart → List String
  | [] => []
  | .toolCall _ n _ :: ps => n :: toolCallNamesOfParts ps
  | _ :: ps => toolCallNamesOfParts ps

theorem map_mapWithIndex {α β γ : Type} (f : Nat → α → β) (g : β → γ) :
    ∀ (n : Nat) (l : List α),
      (mapWithIndex f n l).map g = mapWithIndex (fun i a => g (f i a)) n l := by
  intro n l
  induction l generalizing n with
  | nil => rfl
  | cons a as ih => simp [mapWithIndex, ih]

theorem mapWithIndex_map {α β γ : Type} (f : Nat → β → γ) (h : α → β) :
    ∀ (n : Nat) (l : List α),
      mapWithIndex f n (l.map h) = mapWithIndex (fun i a => f i (h a)) n l := by
  intro n l
  induction l generalizing n with
  | nil => rfl
  | cons a as ih => simp [mapWithIndex, ih]

/-- The accumulated tool calls of a successful assistant-turn conversion
carry exactly the turn's tool-call names, in order, after the accumulator's. -/
theorem convertAssistantParts_names (ps : List ContentPart) :
    ∀ (t : String) (acc : List PendingToolCall) (t2 : String)
      (calls : List PendingToolCall),
      convertAssistantParts ps t acc = .ok (t2, calls) →
      calls.map (·.name) = acc.map (·.name) ++ toolCallNamesOfParts ps := by
  induction ps with
  | nil =>
      intro t acc t2 calls h
      simp [convertAssistantParts] at h
      simp [toolCallNamesOfParts, h.2]
  | cons p ps ih =>
      intro t acc t2 calls h
      cases p with
      | text s =>
          have := ih _ _ _ _ h
          simpa [toolCallNamesOfParts] using this
      | reasoning s =>
          have := ih _ _ _ _ h
          simpa [toolCallNamesOfParts] using this
      | toolCall tid n input =>
          have := ih _ _ _ _ h
          simpa [toolCallNamesOfParts] using this
      | file d mt => simp [convertAssistantParts] at h
      | other tn => simp [convertAssistantParts] at h

/-- **C2** (confirmed).  For an assistant turn whose conversion succeeds and
a subsequent tool turn carrying results for the same tool names in the same
order, the assistant message's synthesized tool-call ids and the tool
messages' synthesized `tool_call_id`s are both the list
`functions.<name>:<index>`, hence equal position by position. -/
theorem c2_tool_call_id_symmetry (aparts : List ContentPart)
    (results : List ToolResultEntry) (msgs : List BackendMessage)
    (imgs : List ImageEntry)
    (hconv : convertToWorkersAIChatMessages
        [Turn.assistant aparts, Turn.tool results] = .ok (msgs, imgs))
    (hnames : toolCallNamesOfParts aparts = results.map (·.toolName)) :
    ∃ amsg tmsgs, msgs = amsg :: tmsgs
      ∧ (amsg.tool_calls.getD []).map (·.id) =
          mapWithIndex (fun i n => functionsId n i) 0 (results.map (·.toolName))
      ∧ tmsgs.map (fun m => m.tool_call_id.getD "") =
          mapWithIndex (fun i n => functionsId n i) 0 (results.map (·.toolName)) := by
  cases h : convertAssistantParts aparts "" [] with
  | error e =>
      exfalso
      simp [convertToWorkersAIChatMessages, convertTurn, h, Except.bind, Except.map] at hconv
  | ok r =>
      obtain ⟨t2, calls⟩ := r
      have hcallnames : calls.map (·.name) = results.map (·.toolName) := by
        have := convertAssistantParts_names aparts "" [] t2 calls h
        simpa [hnames] using this
      have hmsgs : msgs =
          { role := "assistant", content := t2,
            tool_calls := assistantToolCallsField calls } ::
            mapWithIndex (fun i tr =>
              { role := "tool", content := Json.render tr.output,
                name := some tr.toolName,
                tool_call_id := some (functionsId tr.toolName i) }) 0 results := by
        simp [convertToWorkersAIChatMessages, convertTurn, h, Except.bind, Except.map] at hconv
        exact hconv.1.symm
      refine ⟨_, _, hmsgs, ?_, ?_⟩
      · by_cases hc : calls.isEmpty
        · have hcnil : calls = [] := by
            cases calls with
            | nil => rfl
            | cons c cs => simp [List.isEmpty] at hc
          have hrnil : results.map (·.toolName) = [] := by
            rw [← hcallnames, hcnil]; rfl
          simp [assistantToolCallsField, hcnil, hrnil, mapWithIndex]
        · have hfield : assistantToolCallsField calls =
              some (mapWithIndex (fun i c =>
                { id := functionsId c.name i, name := c.name,
                  arguments := c.arguments }) 0 calls) := by
            rw [assistantToolCallsField, if_neg hc]
          dsimp only
          rw [hfield, Option.getD_some, map_mapWithIndex, ← hcallnames,
            mapWithIndex_map]
      · dsimp only
        rw [map_mapWithIndex, mapWithIndex_map]
        simp

/-- Witness for C2 at a concrete two-turn prompt. -/
theorem c2_tool_call_id_symmetry_witness :
    ∃ amsg tmsgs,
      ([{ role := "assistant", content := toolSummary "get" (Json.obj []),
          tool_calls := some [{ id := "functions.get:0", name := "get",
                                arguments := "\x7b\x7d" }] },
        { role := "tool", content := "null", name := some "get",
          tool_call_id := some "functions.get:0" }] : List BackendMessage) =
        amsg :: tmsgs
      ∧ (amsg.tool_calls.getD []).map (·.id) =
          mapWithIndex (fun i n => functionsId n i) 0
            (([⟨"get", Json.null⟩] : List ToolResultEntry).map (·.toolName))
      ∧ tmsgs.map (fun m => m.tool_call_id.getD "") =
          mapWithIndex (fun i n => functionsId n i) 0
            (([⟨"get", Json.null⟩] : List ToolResultEntry).map (·.toolName)) :=
  c2_tool_call_id_symmetry [ContentPart.toolCall "x" "get" (Json.obj [])]
    [⟨"get", Json.null⟩] _ [] (by rfl) (by rfl)

/-- Parts an assistant turn converts without throwing. -/
def isAssistantSafePart : ContentPart → Bool
  | .text _ => true
  | .reasoning _ => true
  | .toolCall _ _ _ => true
  | _ => false

/-- Parts that only append to the assistant text buffer. -/
def isTextualPart : ContentPart → Bool
  | .text _ => true
  | .reasoning _ => true
  | _ => false

/-- Concatenation of the texts of text/reasoning parts, in order. -/
def textualConcat : List ContentPart → String
  | [] => ""
  | .text t :: ps => t ++ textualConcat ps
  | .reasoning t :: ps => t ++ textualConcat ps
  | _ :: ps => textualConcat ps

/-- The assistant part loop over an append splits sequentially. -/
theorem convertAssistantParts_append (xs ys : List ContentPart) :
    ∀ (t : String) (acc : List PendingToolCall),
      convertAssistantParts (xs ++ ys) t acc =
        (convertAssistantParts xs t acc).bind fun r =>
          convertAssistantParts ys r.1 r.2 := by
  induction xs with
  | nil => intro t acc; rfl
  | cons p ps ih =>
      intro t acc
      cases p with
      | text s => simpa [convertAssistantParts] using ih _ _
      | reasoning s => simpa [convertAssistantParts] using ih _ _
      | toolCall tid n input => simpa [convertAssistantParts] using ih _ _
      | file d mt => simp [convertAssistantParts, Except.bind]
      | other tn => simp [convertAssistantParts, Except.bind]

/-- A list of safe parts always converts successfully. -/
theorem convertAssistantParts_safe_ok (ps : List ContentPart)
    (h : ps.all isAssistantSafePart = true) :
    ∀ (t : String) (acc : List PendingToolCall),
      ∃ t2 calls, convertAssistantParts ps t acc = .ok (t2, calls) := by
  induction ps with
  | nil => intro t acc; exact ⟨t, acc, rfl⟩
  | cons p ps ih =>
      intro t acc
      rw [List.all_cons, Bool.and_eq_true] at h
      cases p with
      | text s => exact ih h.2 _ _
      | reasoning s => exact ih h.2 _ _
      | toolCall tid n input => exact ih h.2 _ _
      | file d mt => simp [isAssistantSafePart] at h
      | other tn => simp [isAssistantSafePart] at h

/-- A list of purely textual parts appends its concatenated text to the
buffer and leaves the accumulated tool calls unchanged. -/
theorem convertAssistantParts_textual (ps : List ContentPart)
    (h : ps.all isTextualPart = true) :
    ∀ (t : String) (acc : List PendingToolCall),
      convertAssistantParts ps t acc = .ok (t ++ textualConcat ps, acc) := by
  induction ps with
  | nil => intro t acc; simp [convertAssistantParts, textualConcat]
  | cons p ps ih =>
      intro t acc
      rw [List.all_cons, Bool.and_eq_true] at h
      cases p with
      | text s =>
          rw [show convertAssistantParts (ContentPart.text s :: ps) t acc =
            convertAssistantParts ps (t ++ s) acc from rfl, ih h.2,
            textualConcat, String.append_assoc]
      | reasoning s =>
          rw [show convertAssistantParts (ContentPart.reasoning s :: ps) t acc =
            convertAssistantParts ps (t ++ s) acc from rfl, ih h.2,
            textualConcat, String.append_assoc]
      | toolCall tid n input => simp [isTextualPart] at h
      | file d mt => simp [isTextualPart] at h
      | other tn => simp [isTextualPart] at h

/-- **C7** (amended).  Each tool-call part replaces the running text buffer
with its JSON summary, so the converted assistant message's content is the
JSON summary of the *last* tool-call part followed by the texts of any
text/reasoning parts occurring after it — and therefore equals the last
tool-call summary exactly when nothing textual follows it. -/
theorem c7_last_tool_call_overwrites_buffer (pre post : List ContentPart)
    (tid n : String) (input : Json)
    (hpre : pre.all isAssistantSafePart = true)
    (hpost : post.all isTextualPart = true) :
    ∃ msg calls,
      convertToWorkersAIChatMessages
          [Turn.assistant (pre ++ ContentPart.toolCall tid n input :: post)] =
        .ok ([msg], [])
      ∧ msg.content = toolSummary n input ++ textualConcat post
      ∧ convertAssistantParts (pre ++ ContentPart.toolCall tid n input :: post)
          "" [] = .ok (toolSummary n input ++ textualConcat post, calls) := by
  obtain ⟨t2, calls0, hok⟩ := convertAssistantParts_safe_ok pre hpre "" []
  have hfull : convertAssistantParts
      (pre ++ ContentPart.toolCall tid n input :: post) "" [] =
      .ok (toolSummary n input ++ textualConcat post,
           calls0 ++ [{ origId := tid, name := n,
                        arguments := Json.render input }]) := by
    rw [convertAssistantParts_append, hok]
    show convertAssistantParts (ContentPart.toolCall tid n input :: post) t2 calls0 = _
    rw [show convertAssistantParts (ContentPart.toolCall tid n input :: post) t2 calls0 =
      convertAssistantParts post (toolSummary n input)
        (calls0 ++ [{ origId := tid, name := n,
                      arguments := Json.render input }]) from rfl]
    exact convertAssistantParts_textual post hpost _ _
  refine ⟨{ role := "assistant",
            content := toolSummary n input ++ textualConcat post,
            tool_calls := assistantToolCallsField
              (calls0 ++ [{ origId := tid, name := n,
                            arguments := Json.render input }]) }, _, ?_, rfl, hfull⟩
  simp [convertToWorkersAIChatMessages, convertTurn, hfull, Except.bind, Except.map]

/-- Witness for C7 (amended) at a concrete assistant turn. -/
theorem c7_last_tool_call_overwrites_buffer_witness :
    ∃ msg calls,
      convertToWorkersAIChatMessages
          [Turn.assistant ([] ++ ContentPart.toolCall "id1" "get" (Json.obj []) ::
            [ContentPart.text "x"])] =
        .ok ([msg], [])
      ∧ msg.content = toolSummary "get" (Json.obj []) ++
          textualConcat [ContentPart.text "x"]
      ∧ convertAssistantParts
          ([] ++ ContentPart.toolCall "id1" "get" (Json.obj []) ::
            [ContentPart.text "x"]) "" [] =
          .ok (toolSummary "get" (Json.obj []) ++
            textualConcat [ContentPart.text "x"], calls) :=
  c7_last_tool_call_overwrites_buffer [] [ContentPart.text "x"] "id1" "get"
    (Json.obj []) (by rfl) (by rfl)

theorem string_length_eq_zero_iff (s : String) : s.length = 0 ↔ s = "" := by
  constructor
  · intro h
    cases s with
    | mk data =>
        cases data with
        | nil => rfl
        | cons c cs => simp [String.length] at h
  · intro h; subst h; rfl

/-- **C6** (confirmed).  With a recognized response format and a
successfully converted prompt: when the extracted images list has length 2
or more, both `doGenerate` and `doStream` fail before any backend request
is produced; with 0 or 1 images neither raises (both produce a request). -/
theorem c6_multi_image_guard (opts : CallOptions) (prompt : List Turn)
    (msgs : List BackendMessage) (imgs : List ImageEntry)
    (argTools : Option (List String))
    (hconv : convertToWorkersAIChatMessages prompt = .ok (msgs, imgs))
    (hargs : getArgsTools opts = .ok argTools) :
    (2 ≤ imgs.length →
      exceptIsOk (doGenerateRequest opts prompt) = false
      ∧ exceptIsOk (doStreamRequest opts prompt) = false)
    ∧ (imgs.length ≤ 1 →
      exceptIsOk (doGenerateRequest opts prompt) = true
      ∧ exceptIsOk (doStreamRequest opts prompt) = true) := by
  have hguard2 : 2 ≤ imgs.length → (imgs.length != 0 && imgs.length != 1) = true := by
    intro h2
    have h0 : imgs.length ≠ 0 := by omega
    have h1 : imgs.length ≠ 1 := by omega
    simp [bne_iff_ne, h0, h1]
  have hguard1 : imgs.length ≤ 1 → (imgs.length != 0 && imgs.length != 1) = false := by
    intro h1
    rcases Nat.le_one_iff_eq_zero_or_eq_one.mp h1 with h0 | h0 <;> simp [h0]
  have hgen : ∀ b, (imgs.length != 0 && imgs.length != 1) = b →
      doGenerateRequest opts prompt = (if b then .error multiImageError
        else .ok { messages := msgs, tools := argTools,
                   image := imgs.head?.map (·.image), stream := false }) := by
    intro b hb
    simp [doGenerateRequest, hargs, hconv, Except.bind, hb]
  constructor
  · intro h2
    have hg := hgen true (hguard2 h2)
    simp at hg
    have hs : exceptIsOk (doStreamRequest opts prompt) = false := by
      rw [doStreamRequest, hargs, hconv]
      show exceptIsOk (Except.bind _ _) = false
      simp only [Except.bind]
      by_cases hb : (toolsTruthy argTools && lastMessageWasUser msgs) = true
      · simp [hb, hg, exceptIsOk]
      · simp only [Bool.not_eq_true] at hb
        simp [hb, hguard2 h2, exceptIsOk]
    exact ⟨by simp [hg, exceptIsOk], hs⟩
  · intro h1
    have hg := hgen false (hguard1 h1)
    simp at hg
    have hs : exceptIsOk (doStreamRequest opts prompt) = true := by
      rw [doStreamRequest, hargs, hconv]
      show exceptIsOk (Except.bind _ _) = true
      simp only [Except.bind]
      by_cases hb : (toolsTruthy argTools && lastMessageWasUser msgs) = true
      · simp [hb, hg, exceptIsOk]
      · simp only [Bool.not_eq_true] at hb
        simp [hb, hguard1 h1, exceptIsOk]
    exact ⟨by simp [hg, exceptIsOk], hs⟩

/-- Witness for C6: a two-image prompt fails both entry points, a
zero-image prompt succeeds on both. -/
theorem c6_multi_image_guard_witness :
    (2 ≤ ([{ image := [1], mimeType := none },
           { image := [2], mimeType := none }] : List ImageEntry).length →
      exceptIsOk (doGenerateRequest { tools := some ["t"] }
        [Turn.user [ContentPart.file (FileData.bytes [1]) none,
                    ContentPart.file (FileData.bytes [2]) none]]) = false
      ∧ exceptIsOk (doStreamRequest { tools := some ["t"] }
        [Turn.user [ContentPart.file (FileData.bytes [1]) none,
                    ContentPart.file (FileData.bytes [2]) none]]) = false)
    ∧ (([] : List ImageEntry).length ≤ 1 →
      exceptIsOk (doGenerateRequest { tools := some ["t"] }
        [Turn.user [ContentPart.text "hi"]]) = true
      ∧ exceptIsOk (doStreamRequest { tools := some ["t"] }
        [Turn.user [ContentPart.text "hi"]]) = true) :=
  ⟨(c6_multi_image_guard { tools := some ["t"] }
      [Turn.user [ContentPart.file (FileData.bytes [1]) none,
                  ContentPart.file (FileData.bytes [2]) none]]
      [{ role := "user", content := "\n" }]
      [{ image := [1], mimeType := none }, { image := [2], mimeType := none }]
      (some ["t"]) (by rfl) (by rfl)).1,
   (c6_multi_image_guard { tools := some ["t"] }
      [Turn.user [ContentPart.text "hi"]]
      [{ role := "user", content := "hi" }] [] (some ["t"])
      (by rfl) (by rfl)).2⟩

/-- **C8** (counterexample).  A response that carries the nested
reasoning-content field with the empty string produces *no* reasoning part
(the source tests JS truthiness, and `""` is falsy), refuting the claimed
"if and only if the response carries a nested reasoning-content field". -/
theorem c8_empty_reasoning_field_dropped :
    ({ choices_reasoning_content := some "", response := some "hi" } :
        BackendOutput).choices_reasoning_content = some ""
    ∧ doGenerateContent
        { choices_reasoning_content := some "", response := some "hi" } =
        [ContentPart.text "hi"] :=
  ⟨rfl, rfl⟩

/-- Every part `processToolCalls` derives is a tool-call part. -/
theorem processToolCalls_all_toolCall (o : BackendOutput) :
    (processToolCalls o).all isToolCallPart = true := by
  rw [List.all_eq_true]
  intro p hp
  rw [processToolCalls] at hp
  obtain ⟨tc, _, hmap⟩ := List.mem_filterMap.mp hp
  cases hpj : Json.parse tc.arguments with
  | none => rw [hpj] at hmap; simp at hmap
  | some j =>
      rw [hpj] at hmap
      simp at hmap
      rw [← hmap]
      rfl

theorem countP_eq_zero_of_all_toolCall (l : List ContentPart)
    (h : l.all isToolCallPart = true) :
    l.countP isTextPart = 0 ∧ l.countP isReasoningPart = 0 := by
  induction l with
  | nil => exact ⟨rfl, rfl⟩
  | cons p ps ih =>
      rw [List.all_cons, Bool.and_eq_true] at h
      have hps := ih h.2
      cases p with
      | toolCall a b c =>
          simp [List.countP_cons, isTextPart, isReasoningPart, hps.1, hps.2]
      | text t => simp [isToolCallPart] at h
      | reasoning t => simp [isToolCallPart] at h
      | file d mt => simp [isToolCallPart] at h
      | other tn => simp [isToolCallPart] at h

/-- **C8** (amended).  The decomposed content list is: a reasoning part
first if and only if the response carries a *non-empty* nested
reasoning-content field on the first choice, then exactly one text part
whose text defaults to the empty string, then zero or more tool-call parts
with arguments parsed from their JSON-string encoding. -/
theorem c8_decomposition_order (o : BackendOutput) :
    doGenerateContent o =
      (if truthyReasoning o
       then [ContentPart.reasoning (o.choices_reasoning_content.getD "")]
       else [])
      ++ ContentPart.text ((processText o).getD "") :: processToolCalls o
    ∧ (processToolCalls o).all isToolCallPart = true
    ∧ (doGenerateContent o).countP isTextPart = 1
    ∧ (doGenerateContent o).countP isReasoningPart =
        (if truthyReasoning o then 1 else 0) := by
  have hstruct : doGenerateContent o =
      (if truthyReasoning o
       then [ContentPart.reasoning (o.choices_reasoning_content.getD "")]
       else [])
      ++ ContentPart.text ((processText o).getD "") :: processToolCalls o := by
    cases hrc : o.choices_reasoning_content with
    | none => simp [doGenerateContent, truthyReasoning, hrc]
    | some s =>
        by_cases hse : s = ""
        · simp [doGenerateContent, truthyReasoning, hrc, hse]
        · have hlen : (s.length != 0) = true := by
            have hz : s.length ≠ 0 :=
              fun hh => hse ((string_length_eq_zero_iff s).mp hh)
            simp [bne_iff_ne, hz]
          simp [doGenerateContent, truthyReasoning, hrc, hse, hlen]
  have htc := processToolCalls_all_toolCall o
  have hzero := countP_eq_zero_of_all_toolCall (processToolCalls o) htc
  refine ⟨hstruct, htc, ?_, ?_⟩
  · rw [hstruct]
    by_cases ht : truthyReasoning o <;>
      simp [ht, List.countP_append, List.countP_cons, isTextPart,
        isReasoningPart, hzero.1]
  · rw [hstruct]
    by_cases ht : truthyReasoning o <;>
      simp [ht, List.countP_append, List.countP_cons, isTextPart,
        isReasoningPart, hzero.2]

/-- The running usage snapshot after the whole chunk sequence: every chunk
carrying a usage field overwrites it (last write wins). -/
def lastSeenUsage (chunks : List Chunk) : Usage :=
  chunks.foldl
    (fun acc c => if c.usage.isSome then mapWorkersAIUsage c.usage else acc)
    { inputTokens := 0, outputTokens := 0, totalTokens := 0 }

theorem emitTextDelta_fst_usage (st : StreamState) (s : String) :
    (emitTextDelta st s).1.usage = st.usage := by
  cases h : st.textId <;> simp [emitTextDelta, h]

theorem emitReasoningDelta_fst_usage (st : StreamState) (s : String) :
    (emitReasoningDelta st s).1.usage = st.usage := by
  cases h : st.reasoningId <;> simp [emitReasoningDelta, h]

theorem emitTextDelta_fst_partial (st : StreamState) (s : String) :
    (emitTextDelta st s).1.partialToolCalls = st.partialToolCalls := by
  cases h : st.textId <;> simp [emitTextDelta, h]

theorem emitReasoningDelta_fst_partial (st : StreamState) (s : String) :
    (emitReasoningDelta st s).1.partialToolCalls = st.partialToolCalls := by
  cases h : st.reasoningId <;> simp [emitReasoningDelta, h]

theorem emitTextDelta_snd_no_finish (st : StreamState) (s : String) :
    (emitTextDelta st s).2.countP isFinishEvent = 0 := by
  cases h : st.textId <;> simp [emitTextDelta, h, List.countP_cons, isFinishEvent]

theorem emitReasoningDelta_snd_no_finish (st : StreamState) (s : String) :
    (emitReasoningDelta st s).2.countP isFinishEvent = 0 := by
  cases h : st.reasoningId <;>
    simp [emitReasoningDelta, h, List.countP_cons, isFinishEvent]

theorem stepChunk_fst_usage (st : StreamState) (c : Chunk) :
    (stepChunk st c).1.usage =
      if c.usage.isSome then mapWorkersAIUsage c.usage else st.usage := by
  rw [stepChunk]
  cases h1 : c.usage <;> cases h2 : c.tool_calls <;>
    by_cases h3 : strTruthy c.response = true <;>
    by_cases h4 : strTruthy c.delta_reasoning_content = true <;>
    by_cases h5 : strTruthy c.delta_content = true <;>
    simp [h1, h2, h3, h4, h5, emitTextDelta_fst_usage, emitReasoningDelta_fst_usage]

theorem stepChunk_snd_no_finish (st : StreamState) (c : Chunk) :
    (stepChunk st c).2.countP isFinishEvent = 0 := by
  rw [stepChunk]
  cases h1 : c.usage <;> cases h2 : c.tool_calls <;>
    by_cases h3 : strTruthy c.response = true <;>
    by_cases h4 : strTruthy c.delta_reasoning_content = true <;>
    by_cases h5 : strTruthy c.delta_content = true <;>
    simp [h1, h2, h3, h4, h5, List.countP_append,
      emitTextDelta_snd_no_finish, emitReasoningDelta_snd_no_finish]

theorem runChunks_fst_usage (cs : List Chunk) :
    ∀ st : StreamState, (runChunks st cs).1.usage =
      cs.foldl
        (fun acc c => if c.usage.isSome then mapWorkersAIUsage c.usage else acc)
        st.usage := by
  induction cs with
  | nil => intro st; rfl
  | cons c cs ih =>
      intro st
      rw [runChunks]
      show (runChunks (stepChunk st c).1 cs).1.usage = _
      rw [ih, stepChunk_fst_usage, List.foldl_cons]

theorem runChunks_snd_no_finish (cs : List Chunk) :
    ∀ st : StreamState, (runChunks st cs).2.countP isFinishEvent = 0 := by
  induction cs with
  | nil => intro st; rfl
  | cons c cs ih =>
      intro st
      rw [runChunks]
      show ((stepChunk st c).2 ++ (runChunks (stepChunk st c).1 cs).2).countP
        isFinishEvent = 0
      rw [List.countP_append, stepChunk_snd_no_finish, ih]

/-- Every event the reconciliation emits is a `tool-call` event. -/
theorem processPartialToolCalls_all_toolCall (frags : List ToolCallFragment) :
    (processPartialToolCalls frags).all isToolCallEvent = true := by
  rw [List.all_eq_true]
  intro e he
  rw [processPartialToolCalls] at he
  obtain ⟨i, _, hmap⟩ := List.mem_filterMap.mp he
  by_cases hnm :
      String.join ((frags.filter (fun f => f.index == i)).filterMap (·.name)) = ""
  · rw [if_pos hnm] at hmap; simp at hmap
  · rw [if_neg hnm] at hmap
    cases hpj : Json.parse
        (String.join ((frags.filter (fun f => f.index == i)).filterMap (·.arguments))) with
    | none => rw [hpj] at hmap; simp at hmap
    | some j =>
        rw [hpj] at hmap
        simp at hmap
        rw [← hmap]
        rfl

theorem countP_finish_eq_zero_of_all_toolCall (l : List StreamEvent)
    (h : l.all isToolCallEvent = true) : l.countP isFinishEvent = 0 := by
  induction l with
  | nil => rfl
  | cons e es ih =>
      rw [List.all_cons, Bool.and_eq_true] at h
      cases e with
      | toolCall a b c => simp [List.countP_cons, isFinishEvent, ih h.2]
      | streamStart => simp [isToolCallEvent] at h
      | textStart i => simp [isToolCallEvent] at h
      | textDelta i d => simp [isToolCallEvent] at h
      | textEnd i => simp [isToolCallEvent] at h
      | reasoningStart i => simp [isToolCallEvent] at h
      | reasoningDelta i d => simp [isToolCallEvent] at h
      | reasoningEnd i => simp [isToolCallEvent] at h
      | finish u r => simp [isToolCallEvent] at h

theorem finalizeStream_countP_finish (st : StreamState) :
    (finalizeStream st).countP isFinishEvent = 1 := by
  rw [finalizeStream]
  rw [List.countP_append, List.countP_append, List.countP_append]
  have h1 : (if st.partialToolCalls.isEmpty then []
      else processPartialToolCalls st.partialToolCalls).countP isFinishEvent = 0 := by
    by_cases hc : st.partialToolCalls.isEmpty
    · simp [hc]
    · rw [if_neg hc]
      exact countP_finish_eq_zero_of_all_toolCall _
        (processPartialToolCalls_all_toolCall _)
  have h2 : (match st.reasoningId with
      | some i => [StreamEvent.reasoningEnd i]
      | none => ([] : List StreamEvent)).countP isFinishEvent = 0 := by
    cases st.reasoningId <;> simp [List.countP_cons, isFinishEvent]
  have h3 : (match st.textId with
      | some i => [StreamEvent.textEnd i]
      | none => ([] : List StreamEvent)).countP isFinishEvent = 0 := by
    cases st.textId <;> simp [List.countP_cons, isFinishEvent]
  rw [h1, h2, h3]
  simp [List.countP_cons, isFinishEvent]

/-- **C4** (confirmed).  At end of input `getMappedStream` emits the
reconciled tool-call events first, then `reasoning-end` for a still-open
reasoning block, then `text-end` for a still-open text block, and finally
exactly one `finish` event — the last event of the stream — carrying the
last-seen usage snapshot and the fixed `"stop"` reason. -/
theorem c4_end_of_input_order (chunks : List Chunk) :
    getMappedStream chunks =
      (runChunks {} chunks).2
      ++ (if (runChunks {} chunks).1.partialToolCalls.isEmpty then []
          else processPartialToolCalls (runChunks {} chunks).1.partialToolCalls)
      ++ (match (runChunks {} chunks).1.reasoningId with
          | some i => [StreamEvent.reasoningEnd i]
          | none => [])
      ++ (match (runChunks {} chunks).1.textId with
          | some i => [StreamEvent.textEnd i]
          | none => [])
      ++ [StreamEvent.finish (lastSeenUsage chunks) "stop"]
    ∧ (processPartialToolCalls (runChunks {} chunks).1.partialToolCalls).all
        isToolCallEvent = true
    ∧ (getMappedStream chunks).countP isFinishEvent = 1
    ∧ (getMappedStream chunks).getLast? =
        some (StreamEvent.finish (lastSeenUsage chunks) "stop") := by
  have husage : (runChunks {} chunks).1.usage = lastSeenUsage chunks := by
    rw [runChunks_fst_usage]; rfl
  have hstruct : getMappedStream chunks =
      (runChunks {} chunks).2
      ++ (if (runChunks {} chunks).1.partialToolCalls.isEmpty then []
          else processPartialToolCalls (runChunks {} chunks).1.partialToolCalls)
      ++ (match (runChunks {} chunks).1.reasoningId with
          | some i => [StreamEvent.reasoningEnd i]
          | none => [])
      ++ (match (runChunks {} chunks).1.textId with
          | some i => [StreamEvent.textEnd i]
          | none => [])
      ++ [StreamEvent.finish (lastSeenUsage chunks) "stop"] := by
    rw [getMappedStream]
    show (runChunks {} chunks).2 ++ finalizeStream (runChunks {} chunks).1 = _
    rw [finalizeStream, husage]
    simp only [List.append_assoc]
  refine ⟨hstruct, processPartialToolCalls_all_toolCall _, ?_, ?_⟩
  · rw [getMappedStream]
    show ((runChunks {} chunks).2 ++ finalizeStream (runChunks {} chunks).1).countP
      isFinishEvent = 1
    rw [List.countP_append, runChunks_snd_no_finish, finalizeStream_countP_finish]
  · rw [hstruct]
    exact List.getLast?_concat _

/-- The usages carried by the `finish` events of an event sequence. -/
def finishUsages (evs : List StreamEvent) : List Usage :=
  evs.filterMap fun e =>
    match e with
    | .finish u _ => some u
    | _ => none

theorem finishUsages_eq_nil_of_no_finish (l : List StreamEvent)
    (h : l.countP isFinishEvent = 0) : finishUsages l = [] := by
  induction l with
  | nil => rfl
  | cons e es ih =>
      rw [List.countP_cons] at h
      cases e with
      | finish u r => simp [isFinishEvent] at h
      | streamStart => exact ih (by omega)
      | textStart i => exact ih (by omega)
      | textDelta i d => exact ih (by omega)
      | textEnd i => exact ih (by omega)
      | reasoningStart i => exact ih (by omega)
      | reasoningDelta i d => exact ih (by omega)
      | reasoningEnd i => exact ih (by omega)
      | toolCall a b c => exact ih (by omega)

theorem finishUsages_append (l1 l2 : List StreamEvent) :
    finishUsages (l1 ++ l2) = finishUsages l1 ++ finishUsages l2 :=
  List.filterMap_append l1 l2 _

/-- The usage fold over chunks equals the fold over the extracted usage
fields: every carried usage field overwrites the accumulator. -/
theorem foldl_usage_eq_filterMap (cs : List Chunk) :
    ∀ acc : Usage,
      cs.foldl
        (fun a c => if c.usage.isSome then mapWorkersAIUsage c.usage else a) acc =
      (cs.filterMap (·.usage)).foldl
        (fun _ r => mapWorkersAIUsage (some r)) acc := by
  induction cs with
  | nil => intro acc; rfl
  | cons c cs ih =>
      intro acc
      cases h : c.usage with
      | none => simp [List.foldl_cons, List.filterMap_cons, h, ih]
      | some u => simp [List.foldl_cons, List.filterMap_cons, h, ih]

/-- **C5** (confirmed).  When at least two chunks carry a usage field, the
`finish` event's usage equals the mapping of the *last* such chunk's values
(`inputTokens = prompt_tokens`, `outputTokens = completion_tokens`,
`totalTokens` their sum) — last write wins, not an accumulation. -/
theorem c5_usage_last_write_wins (chunks : List Chunk) (us : List RawUsage)
    (u : RawUsage) (h : chunks.filterMap (·.usage) = us ++ [u])
    (hlen : 1 ≤ us.length) :
    finishUsages (getMappedStream chunks) = [mapWorkersAIUsage (some u)] := by
  have husage : (runChunks {} chunks).1.usage = mapWorkersAIUsage (some u) := by
    rw [runChunks_fst_usage]
    show List.foldl _ ({} : StreamState).usage chunks = _
    rw [show ({} : StreamState).usage =
      ({ inputTokens := 0, outputTokens := 0, totalTokens := 0 } : Usage) from rfl]
    rw [foldl_usage_eq_filterMap, h, List.foldl_append]
    rfl
  rw [getMappedStream]
  show finishUsages ((runChunks {} chunks).2 ++ finalizeStream (runChunks {} chunks).1) = _
  rw [finishUsages_append,
    finishUsages_eq_nil_of_no_finish _ (runChunks_snd_no_finish chunks {}),
    List.nil_append, finalizeStream, husage]
  rw [finishUsages_append, finishUsages_append, finishUsages_append]
  have h1 : finishUsages (if (runChunks {} chunks).1.partialToolCalls.isEmpty then []
      else processPartialToolCalls (runChunks {} chunks).1.partialToolCalls) = [] := by
    by_cases hc : (runChunks {} chunks).1.partialToolCalls.isEmpty
    · simp [hc, finishUsages]
    · rw [if_neg hc]
      exact finishUsages_eq_nil_of_no_finish _
        (countP_finish_eq_zero_of_all_toolCall _ (processPartialToolCalls_all_toolCall _))
  have h2 : finishUsages (match (runChunks {} chunks).1.reasoningId with
      | some i => [StreamEvent.reasoningEnd i]
      | none => ([] : List StreamEvent)) = [] := by
    cases (runChunks {} chunks).1.reasoningId <;> simp [finishUsages]
  have h3 : finishUsages (match (runChunks {} chunks).1.textId with
      | some i => [StreamEvent.textEnd i]
      | none => ([] : List StreamEvent)) = [] := by
    cases (runChunks {} chunks).1.textId <;> simp [finishUsages]
  rw [h1, h2, h3]
  rfl

/-- Witness for C5: two usage-carrying chunks; the finish usage is the
mapping of the second, not the sum of both. -/
theorem c5_usage_last_write_wins_witness :
    finishUsages (getMappedStream
        [{ usage := some { prompt_tokens := 1, completion_tokens := 2 } },
         { usage := some { prompt_tokens := 10, completion_tokens := 20 } }]) =
      [mapWorkersAIUsage (some { prompt_tokens := 10, completion_tokens := 20 })] :=
  c5_usage_last_write_wins
    [{ usage := some { prompt_tokens := 1, completion_tokens := 2 } },
     { usage := some { prompt_tokens := 10, completion_tokens := 20 } }]
    [{ prompt_tokens := 1, completion_tokens := 2 }]
    { prompt_tokens := 10, completion_tokens := 20 } (by rfl) (by decide)

/-- **C9** (confirmed).  Whatever product list the fetch step returns and
whatever ranked-id list the LLM step returns, the workflow's `topProducts`
holds at most 3 products, each drawn from the fetched set, each with rating
at least 2.0, and each respecting the optional price bounds. -/
theorem c9_top_products_sound (fetched : List Product)
    (minP maxP : Option ℚ) (rankedIds : List Int) :
    (productRecommendationRun fetched minP maxP rankedIds).topProducts.length ≤ 3
    ∧ ∀ p ∈ (productRecommendationRun fetched minP maxP rankedIds).topProducts,
        p ∈ fetched ∧ (2 : ℚ) ≤ p.rating
        ∧ (∀ m, minP = some m → m ≤ p.price)
        ∧ (∀ m, maxP = some m → p.price ≤ m) := by
  constructor
  · show (rankTop3 _ _).length ≤ 3
    rw [rankTop3, List.length_take]
    exact min_le_left _ _
  · intro p hp
    have hp2 : p ∈ rankedIds.filterMap
        (fun i => (filterProducts fetched minP maxP).find? fun q => q.id == i) :=
      List.mem_of_mem_take hp
    obtain ⟨i, _, hfind⟩ := List.mem_filterMap.mp hp2
    have hmem : p ∈ filterProducts fetched minP maxP :=
      List.mem_of_find?_eq_some hfind
    rw [filterProducts] at hmem
    have hmf := List.mem_filter.mp hmem
    obtain ⟨hmemf, hpred⟩ := hmf
    simp only [Bool.and_eq_true] at hpred
    obtain ⟨⟨hrating, hmin⟩, hmax⟩ := hpred
    refine ⟨hmemf, of_decide_eq_true hrating, ?_, ?_⟩
    · intro m hm
      rw [hm] at hmin
      exact of_decide_eq_true hmin
    · intro m hm
      rw [hm] at hmax
      exact of_decide_eq_true hmax

/-- A concrete product used by the C9 witness. -/
def sampleProduct : Product :=
  { id := 1, title := "A", description := "", price := 10, rating := 3 }

/-- Witness for C9 at a concrete one-product run with both price bounds. -/
theorem c9_top_products_sound_witness :
    sampleProduct ∈ [sampleProduct]
    ∧ (2 : ℚ) ≤ sampleProduct.rating
    ∧ (∀ m, (some 5 : Option ℚ) = some m → m ≤ sampleProduct.price)
    ∧ (∀ m, (some 20 : Option ℚ) = some m → sampleProduct.price ≤ m) :=
  (c9_top_products_sound [sampleProduct] (some 5) (some 20) [1]).2
    sampleProduct (by decide)
